import Mathlib

/-
  Verification of the scanning/classification core of the
  playwright-attr-audit repository (src/core/audit.ts, the current
  `auditTestAttributes` implementation, together with the attribute
  resolver `getAttributeName` from the config reader).

  The embedding is a shallow functional model: the browser page and the
  driver (Playwright) are external collaborators, so every driver
  interaction (query results, in-page evaluation results, whether a given
  evaluation throws, bounding boxes, screenshots) is an explicit input of
  the model.  The DOM state an in-page evaluation reads is carried in an
  `Elem` record.  JavaScript string primitives are transcribed over the
  character sequence of the Lean `String` (JS `.length` counts UTF-16
  units while the model counts characters; the difference is immaterial
  for the audited properties, and all concrete inputs are ASCII).
-/

namespace AttrAudit

/-- Transcription of the JS `String.prototype.trim` used by the audit:
drop leading and trailing whitespace characters. -/
def strTrim (s : String) : String :=
  ⟨((s.data.dropWhile Char.isWhitespace).reverse.dropWhile Char.isWhitespace).reverse⟩

/-- Transcription of JS `substring(0, n)` (hard truncate, no ellipsis). -/
def strTake (n : Nat) (s : String) : String :=
  ⟨s.data.take n⟩

/-- Transcription of JS `toLowerCase` (ASCII letters, which is all the
audit ever produces). -/
def strToLower (s : String) : String :=
  ⟨s.data.map Char.toLower⟩

/-- Helper for `splitOnChar`: accumulates the current field (reversed). -/
def splitOnCharAux (sep : Char) (cur : List Char) : List Char → List String
  | [] => [⟨cur.reverse⟩]
  | c :: rest =>
    if c == sep then ⟨cur.reverse⟩ :: splitOnCharAux sep [] rest
    else splitOnCharAux sep (c :: cur) rest

/-- Transcription of JS `split` on a single-character separator
(`split(' ')` and `split(/\n/)` in the source). -/
def splitOnChar (sep : Char) (s : String) : List String :=
  splitOnCharAux sep [] s.data

/-- Helper for `strContains`: does `needle` occur as a segment of the list? -/
def segAt (needle : List Char) : List Char → Bool
  | [] => needle.isEmpty
  | c :: rest => needle.isPrefixOf (c :: rest) || segAt needle rest

/-- Transcription of JS `String.prototype.includes`. -/
def strContains (hay needle : String) : Bool :=
  segAt needle.data hay.data

/-- Transcription of JS `Array.prototype.join('.')`. -/
def joinDots : List String → String
  | [] => ""
  | [c] => c
  | c :: rest => c ++ "." ++ joinDots rest

/-- JS truthiness of a nullable string: `null`, `undefined` and `""` are
falsy; any other string is truthy. -/
def jsStr : Option String → Option String
  | some s => if s = "" then none else some s
  | none => none

/-- Kebab step 1, transcribing `str.replace(/([A-Z])/g, '-$1')`: a hyphen
is inserted before every ASCII capital letter. -/
def kebabStep1 (cs : List Char) : List Char :=
  cs.foldr (fun c acc => if c.isUpper then '-' :: c :: acc else c :: acc) []

/-- Character class kept by `replace(/[^a-z0-9\s-]/gi, '')`: ASCII
letters (both cases, because of the `i` flag), digits, whitespace and
hyphens survive; everything else is deleted. -/
def kebabKeep (c : Char) : Bool :=
  c.isAlpha || c.isDigit || c.isWhitespace || c == '-'

/-- Kebab step 2, transcribing `replace(/[^a-z0-9\s-]/gi, '')`. -/
def kebabStep2 (cs : List Char) : List Char :=
  cs.filter kebabKeep

/-- Kebab step 3, transcribing `replace(/\s+/g, '-')`: every maximal run
of whitespace becomes a single hyphen (the hyphen is emitted at the last
character of the run). -/
def kebabStep3 : List Char → List Char
  | [] => []
  | [c] => if c.isWhitespace then ['-'] else [c]
  | c₁ :: c₂ :: rest =>
    if c₁.isWhitespace then
      if c₂.isWhitespace then kebabStep3 (c₂ :: rest)
      else '-' :: kebabStep3 (c₂ :: rest)
    else c₁ :: kebabStep3 (c₂ :: rest)

/-- Kebab step 4, transcribing the hyphen-run replace (regex "-+" to
"-", global): every maximal run of hyphens collapses to a single
hyphen. -/
def kebabStep4 : List Char → List Char
  | [] => []
  | [c] => [c]
  | c₁ :: c₂ :: rest =>
    if c₁ == '-' && c₂ == '-' then kebabStep4 (c₂ :: rest)
    else c₁ :: kebabStep4 (c₂ :: rest)

/-- Kebab step 5, transcribing `replace(/^-|-$/g, '')`: one leading and
one trailing hyphen are removed. -/
def kebabStep5 (cs : List Char) : List Char :=
  let cs1 := if cs.head? == some '-' then cs.tail else cs
  if cs1.getLast? == some '-' then cs1.dropLast else cs1

/-- Transcription of the `toKebabCase` helper inside the suggested-value
evaluation of `auditTestAttributes` (audit.ts lines 423-431). -/
def toKebabCase (s : String) : String :=
  ⟨(kebabStep5 (kebabStep4 (kebabStep3 (kebabStep2 (kebabStep1 s.data))))).map Char.toLower⟩

/-- Transcription of the `getVisibleText` helper inside the
suggested-value evaluation (audit.ts lines 434-452).  Its input is the
text content of the element's clone after `script`/`style` removal,
which is driver-side state and hence a model input. -/
def getVisibleText (cloneText : String) : String :=
  let text := strTrim cloneText
  if text.length > 100 then
    match ((splitOnChar '\n' text).map strTrim).filter (fun l => l.length > 0) with
    | [] => text
    | l :: _ => l
  else text

/-- Default attribute name shown when the resolved spec is a pattern
(audit.ts line 24). -/
def DEFAULT_ATTRIBUTE_NAME : String := "data-testID"

/-- Resolved attribute identity (config-reader `getAttributeName`
return type): an exact attribute name, or the default case-insensitive
regex matching names that start with "data-". -/
inductive AttrSpec
  | exact (name : String)
  | defaultDataRegex
deriving DecidableEq

/-- Transcription of `getAttributeName` (multi-page-audit config reader,
lines 449-463).  `configAttr` models the `attributeName` extracted from
the Playwright config file by `readPlaywrightConfig` (an external
filesystem read, hence a model input); `optionsAttr` is
`options.attributeName`.  Both are tested with JS truthiness. -/
def getAttributeName (configAttr optionsAttr : Option String) : AttrSpec :=
  match jsStr configAttr with
  | some a => AttrSpec.exact a
  | none =>
    match jsStr optionsAttr with
    | some a => AttrSpec.exact a
    | none => AttrSpec.defaultDataRegex

/-- Transcription of the test of the default regex (regex "^data-" with
the i flag) against one attribute name. -/
def dataRegexTest (attr : String) : Bool :=
  (strToLower attr).startsWith "data-"

/-- Display attribute name (audit.ts lines 148-150): the exact name when
the spec is a string, otherwise the literal default. -/
def displayAttributeName : AttrSpec → String
  | AttrSpec.exact n => n
  | AttrSpec.defaultDataRegex => DEFAULT_ATTRIBUTE_NAME

/-- DOM state of one discovered element, as read by the in-page
evaluations of the audit.  `matchesSelf`/`matchesAncestors` model the
results of `Element.matches` on the element and on its parent chain
(`none` means the call throws, e.g. on invalid selector syntax).
`getAttr` models `getAttribute` (`none` is JS `null`);
`attributeNames` models `getAttributeNames()`; `nameProp` and
`placeholderProp` model the `name`/`placeholder` element properties
("" when absent, which is falsy exactly like JS `undefined` here);
`parentAria` is `none` when the element has no parent, otherwise the
parent's aria-label attribute; `cloneText` is the text content of the
element's clone after script/style removal; `randSuffix` models the
random suffix `Math.random().toString(36).substring(2, 8)`. -/
structure Elem where
  tagName : String
  textContent : String
  id : String
  className : Option String
  matchesSelf : String → Option Bool
  matchesAncestors : List (String → Option Bool)
  getAttr : String → Option String
  attributeNames : List String
  nameProp : String
  placeholderProp : String
  parentAria : Option (Option String)
  cloneText : String
  randSuffix : String

/-- Bounding box as returned by the driver.  Coordinates are modelled as
integers (the source applies `Math.round` to the driver's numbers; the
model takes the already-rounded values as input, machine floats being
outside the embedding). -/
structure Box where
  x : Int
  y : Int
  width : Int
  height : Int
deriving DecidableEq

/-- One discovered candidate: the element state together with the
outcomes of every driver operation the audit may perform on its handle.
A `*Throws` flag set (or a `none` outcome) means the corresponding
asynchronous call fails; the audit's catch handlers decide what that
does.  `boxOutcome` is `none` when `boundingBox()` throws or resolves to
null (both are mapped to null by the source's catch). `xpathOutcome` is
the result of `generateXPath` (`none` models its catch returning
undefined). `screenshotOutcome` is the screenshot buffer (`none` when
capture fails; base64 encoding of the buffer is elided as an injective
recoding irrelevant to the audited properties). -/
structure Candidate where
  elem : Elem
  extractThrows : Bool
  classifyThrows : Bool
  boxOutcome : Option Box
  suggestThrows : Bool
  xpathOutcome : Option String
  screenshotOutcome : Option String
  attrValueThrows : Bool

/-- A discovered handle tagged with its originating selector
(audit.ts line 182). -/
structure DiscItem where
  cand : Candidate
  origSelector : String

/-- Result of the per-candidate property evaluation
(audit.ts lines 201-247). -/
structure Props where
  tagName : String
  textSnippet : String
  role : Option String
  selector : String
  shouldExclude : Bool
deriving DecidableEq

/-- A candidate that survived property extraction. -/
structure ScanItem where
  cand : Candidate
  origSelector : String
  props : Props

/-- A valid element together with its attribute-check verdict. -/
structure ClassifiedItem where
  item : ScanItem
  hasAttribute : Bool

/-- Final reported shape for an element missing the attribute
(types.ts `MissingAttributeElement`, constructed at audit.ts
lines 538-548). -/
structure MissingAttributeElement where
  selector : String
  tagName : String
  textSnippet : String
  xpath : Option String
  role : Option String
  pageUrl : String
  boundingBox : Option Box
  suggestedValue : Option String
  screenshot : Option String
deriving DecidableEq

/-- Final reported shape for an element that has the attribute
(constructed at audit.ts lines 374-386). -/
structure HasAttributeElement where
  selector : String
  tagName : String
  textSnippet : String
  attributeValue : String
  xpath : Option String
  role : Option String
  pageUrl : String
  boundingBox : Option Box
  screenshot : Option String
deriving DecidableEq

/-- The audit result record (types.ts `AuditResult`, constructed at
audit.ts lines 573-582). -/
structure AuditResult where
  attributeName : String
  totalElementsScanned : Nat
  missingAttributeCount : Nat
  hasAttributeCount : Option Nat
  elementsMissingAttribute : List MissingAttributeElement
  elementsWithAttribute : Option (List HasAttributeElement)
  timestamp : String
  pageUrl : String
deriving DecidableEq

/-- One invocation of the `onProgress` callback. -/
structure Prog where
  scanned : Nat
  total : Nat
  missing : Nat
deriving DecidableEq

/-- Warning/failure thresholds (percentages; the model uses exact
rationals for the percentage arithmetic). -/
structure Thresholds where
  warningThreshold : Option ℚ
  failureThreshold : Option ℚ

/-- The audit options consumed by the core (config syntax, console
logging and report rendering are external). -/
structure AuditConfig where
  playwrightConfigAttr : Option String
  optionsAttributeName : Option String
  excludeSelectors : List String
  minTextLength : Nat
  thresholds : Option Thresholds
  captureScreenshots : Bool
  includeElementsWithAttribute : Bool

/-- The page-side inputs of one audit run: the URL, the timestamp the
clock returns, one query outcome per include selector (`none` when the
query throws), and the completion orders of the concurrent selector
queries and of the concurrent property evaluations (concurrency model:
each async callback runs atomically when its awaited driver call
resolves, in resolution order). -/
structure PageModel where
  url : String
  timestamp : String
  selectorQueries : List (String × Option (List Candidate))
  queryOrder : List Nat
  extractionOrder : List Nat

/-- Transcription of the exclusion check of the property evaluation
(audit.ts lines 218-244).  For each exclude selector: if
`el.matches(selector)` returns true the element is excluded; if it
throws, the outer catch skips to the next selector (the ancestor walk of
that iteration is skipped with it); otherwise every ancestor is tested,
a throwing ancestor `matches` being individually ignored by the inner
catch. -/
def computeShouldExclude (el : Elem) (excludeSelectors : List String) : Bool :=
  excludeSelectors.any (fun s =>
    match el.matchesSelf s with
    | none => false
    | some true => true
    | some false => el.matchesAncestors.any (fun m => m s == some true))

/-- Transcription of the per-candidate property evaluation
(audit.ts lines 201-247): lower-cased tag name, trimmed text content
hard-truncated to 100 characters, the role attribute, the synthesized
selector, and the exclusion verdict. -/
def computeProps (excludeSelectors : List String) (el : Elem) : Props :=
  let tagName := strToLower el.tagName
  let textContent := strTrim el.textContent
  let textSnippet := strTake 100 textContent
  let role := el.getAttr "role"
  let selector :=
    if el.id ≠ "" then "#" ++ el.id
    else
      match el.className with
      | some cn =>
        if cn ≠ "" then
          let classes := joinDots (((splitOnChar ' ' cn).filter (fun c => c != "")))
          if classes ≠ "" then tagName ++ "." ++ classes else tagName
        else tagName
      | none => tagName
  { tagName := tagName, textSnippet := textSnippet, role := role,
    selector := selector,
    shouldExclude := computeShouldExclude el excludeSelectors }

/-- One step of the batched property extraction (audit.ts lines
198-266): a throwing evaluation yields null (the candidate is dropped
later), otherwise the element is kept with its extracted properties and
originating selector. -/
def extractOne (excludeSelectors : List String) (d : DiscItem) : Option ScanItem :=
  if d.cand.extractThrows then none
  else some { cand := d.cand, origSelector := d.origSelector,
              props := computeProps excludeSelectors d.cand.elem }

/-- The condition of the validity filter on one non-null extraction
(audit.ts lines 271-273): not excluded, and the text snippet at least
`minTextLength` long. -/
def validKeep (minTextLength : Nat) (it : ScanItem) : Bool :=
  decide (it.props.shouldExclude = false ∧ minTextLength ≤ it.props.textSnippet.length)

/-- Transcription of the validity filter (audit.ts lines 268-281):
drop nulls, drop excluded elements, drop elements whose text snippet is
shorter than `minTextLength`; relative order is preserved. -/
def validFilter (minTextLength : Nat) (l : List (Option ScanItem)) : List ScanItem :=
  l.filterMap (fun o =>
    match o with
    | none => none
    | some it => if validKeep minTextLength it then some it else none)

/-- Transcription of the attribute check (audit.ts lines 285-315): for a
string spec, `hasAttribute(name)`; for the default regex spec, some
attribute name matches the pattern; a throwing evaluation is caught and
the element is assumed to have the attribute (fail-open). -/
def classifyOne (spec : AttrSpec) (it : ScanItem) : ClassifiedItem :=
  if it.cand.classifyThrows then { item := it, hasAttribute := true }
  else
    match spec with
    | AttrSpec.exact a =>
      { item := it, hasAttribute := it.cand.elem.attributeNames.contains a }
    | AttrSpec.defaultDataRegex =>
      { item := it, hasAttribute := it.cand.elem.attributeNames.any dataRegexTest }

/-- Transcription of the framework-class filter of priority 7 of the
suggested-value evaluation (audit.ts line 497). -/
def classTokenKeep (c : String) : Bool :=
  c != "" && !(strContains c "css-") && !(c.startsWith "Mui")

/-- Transcription of the suggested-value evaluation body (audit.ts lines
421-505), run when the evaluation does not throw: priority order id,
aria-label, parent aria-label, name, visible text (non-empty and shorter
than 50), placeholder, first non-framework class token, then the
tag-plus-random-suffix fallback; each source value goes through
`toKebabCase`. -/
def suggestedValueCore (el : Elem) : String :=
  if el.id ≠ "" then toKebabCase el.id
  else
    match jsStr (el.getAttr "aria-label") with
    | some al => toKebabCase al
    | none =>
      match (match el.parentAria with
             | some pal => jsStr pal
             | none => none) with
      | some pal => toKebabCase pal
      | none =>
        if el.nameProp ≠ "" then toKebabCase el.nameProp
        else
          let visibleText := getVisibleText el.cloneText
          if visibleText.length > 0 ∧ visibleText.length < 50 then
            toKebabCase visibleText
          else if el.placeholderProp ≠ "" then toKebabCase el.placeholderProp
          else
            match el.className with
            | some cn =>
              if cn ≠ "" then
                match ((splitOnChar ' ' cn).filter classTokenKeep) with
                | c :: _ => toKebabCase c
                | [] => strToLower el.tagName ++ "-" ++ el.randSuffix
              else strToLower el.tagName ++ "-" ++ el.randSuffix
            | none => strToLower el.tagName ++ "-" ++ el.randSuffix

/-- Transcription of the per-element screenshot capture (audit.ts lines
357-372 and 521-536): only when capture is enabled, and only a buffer
of positive length yields a value; every failure leaves the field
absent. -/
def enrichScreenshot (capture : Bool) (shot : Option String) : Option String :=
  if capture then
    match shot with
    | some buf => if buf.length > 0 then some buf else none
    | none => none
  else none

/-- Transcription of the enrichment of one missing-attribute element
(audit.ts lines 414-552): bounding box, suggested value, lazily
generated xpath and optional screenshot, each failure absorbed
per-field.  Every fallible inner operation is individually caught in
the source, so the outer catch returning null is unreachable and the
element is always produced. -/
def enrichMissing (pageUrl : String) (capture : Bool) (it : ClassifiedItem) :
    Option MissingAttributeElement :=
  some {
    selector := it.item.props.selector,
    tagName := it.item.props.tagName,
    textSnippet := it.item.props.textSnippet,
    xpath := it.item.cand.xpathOutcome,
    role := it.item.props.role,
    pageUrl := pageUrl,
    boundingBox := it.item.cand.boxOutcome,
    suggestedValue :=
      if it.item.cand.suggestThrows then none
      else some (suggestedValueCore it.item.cand.elem),
    screenshot := enrichScreenshot capture it.item.cand.screenshotOutcome }

/-- Transcription of the enrichment of one has-attribute element
(audit.ts lines 333-391): bounding box and attribute value (retrieved
under the display attribute name) in parallel, xpath skipped, optional
screenshot; a falsy attribute value drops the element from the result
entirely. -/
def enrichWith (pageUrl : String) (capture : Bool) (attributeName : String)
    (it : ClassifiedItem) : Option HasAttributeElement :=
  let attributeValue :=
    if it.item.cand.attrValueThrows then none
    else it.item.cand.elem.getAttr attributeName
  match jsStr attributeValue with
  | some v =>
    some {
      selector := it.item.props.selector,
      tagName := it.item.props.tagName,
      textSnippet := it.item.props.textSnippet,
      attributeValue := v,
      xpath := none,
      role := it.item.props.role,
      pageUrl := pageUrl,
      boundingBox := it.item.cand.boxOutcome,
      screenshot := enrichScreenshot capture it.item.cand.screenshotOutcome }
  | none => none

/-- Batched loop over the has-attribute partition (audit.ts lines
327-405): slices of 50 processed in order (`Promise.all` preserves
index order inside a batch), nulls filtered, and one progress report per
batch with `scanned = min(i + 50, partitionSize)` against the valid
count.  `fuel` is the remaining list length, which bounds the batch
count since every iteration consumes at least one element; the zero-fuel
branch is unreachable from `withBatchLoop`. -/
def withBatchGo (f : ClassifiedItem → Option HasAttributeElement)
    (withLen validLen : Nat) :
    Nat → Nat → List ClassifiedItem → List HasAttributeElement × List Prog
  | 0, _, _ => ([], [])
  | Nat.succ fuel, i, l =>
    if l.isEmpty then ([], [])
    else
      let res := (l.take 50).filterMap f
      let rec_result := withBatchGo f withLen validLen fuel (i + 50) (l.drop 50)
      (res ++ rec_result.1,
       ⟨min (i + 50) withLen, validLen, 0⟩ :: rec_result.2)

/-- Entry point of the has-attribute batch loop. -/
def withBatchLoop (f : ClassifiedItem → Option HasAttributeElement)
    (validLen : Nat) (l : List ClassifiedItem) :
    List HasAttributeElement × List Prog :=
  withBatchGo f l.length validLen l.length 0 l

/-- Batched loop over the missing partition (audit.ts lines 408-566):
slices of 50 processed in order, nulls filtered, and one progress report
per batch with `scanned = validLen` and the cumulative missing count
after the batch's push.  Fuel as in `withBatchGo`. -/
def missBatchGo (f : ClassifiedItem → Option MissingAttributeElement)
    (validLen : Nat) :
    Nat → Nat → List ClassifiedItem → List MissingAttributeElement × List Prog
  | 0, _, _ => ([], [])
  | Nat.succ fuel, acc, l =>
    if l.isEmpty then ([], [])
    else
      let res := (l.take 50).filterMap f
      let rec_result := missBatchGo f validLen fuel (acc + res.length) (l.drop 50)
      (res ++ rec_result.1,
       ⟨validLen, validLen, acc + res.length⟩ :: rec_result.2)

/-- Entry point of the missing-partition batch loop. -/
def missBatchLoop (f : ClassifiedItem → Option MissingAttributeElement)
    (validLen : Nat) (l : List ClassifiedItem) :
    List MissingAttributeElement × List Prog :=
  missBatchGo f validLen l.length 0 l

/-- Discovery (audit.ts lines 176-190): one query per selector, all
running concurrently; each callback atomically pushes its whole group
when its query resolves, so the flattened list is the concatenation of
the selector groups in query-completion order (`order`).  A failed
query contributes nothing. -/
def discover (qs : List (String × Option (List Candidate))) (order : List Nat) :
    List DiscItem :=
  (order.map (fun i =>
    match qs.get? i with
    | some (sel, some els) => els.map (fun e => { cand := e, origSelector := sel })
    | _ => [])).flatten

/-- The candidate list in configured selector order (each group in
document order), which is what discovery yields when every query
completes in the order it was issued. -/
def discoverSeq (qs : List (String × Option (List Candidate))) : List DiscItem :=
  qs.flatMap (fun q =>
    match q.2 with
    | some els => els.map (fun e => { cand := e, origSelector := q.1 })
    | none => [])

/-- Progress reports of the extraction phase (audit.ts lines 249-252):
in evaluation-completion order, each successful extraction whose
1-based index is a multiple of 10 reports its index against the raw
candidate count. -/
def extractionTrace (total : Nat) (cands : List DiscItem) (order : List Nat) :
    List Prog :=
  order.filterMap (fun idx =>
    match cands.get? idx with
    | some d =>
      if !d.cand.extractThrows && (idx + 1) % 10 == 0
      then some ⟨idx + 1, total, 0⟩ else none
    | none => none)

/-- Everything the audit computes before the threshold check, kept with
all intermediate stages so that properties of each stage can be stated
against a whole run. -/
structure Pipeline where
  allHandles : List DiscItem
  extracted : List (Option ScanItem)
  validElements : List ScanItem
  attributeChecks : List ClassifiedItem
  elementsWithAttribute : List ClassifiedItem
  elementsMissingAttribute : List ClassifiedItem
  hasAttributeElements : List HasAttributeElement
  missingElements : List MissingAttributeElement
  trace : List Prog
  result : AuditResult

/-- The audit pipeline (audit.ts `auditTestAttributes`, lines 142-582):
attribute resolution, concurrent discovery, batched property
extraction with milestone progress, validity filter, concurrent
attribute classification, partition, batched enrichment of both
partitions with per-batch progress, final progress report and result
construction. -/
def auditPipeline (cfg : AuditConfig) (page : PageModel) : Pipeline :=
  let spec := getAttributeName cfg.playwrightConfigAttr cfg.optionsAttributeName
  let attributeName := displayAttributeName spec
  let allHandles := discover page.selectorQueries page.queryOrder
  let extracted := allHandles.map (extractOne cfg.excludeSelectors)
  let extTrace := extractionTrace allHandles.length allHandles page.extractionOrder
  let validElements := validFilter cfg.minTextLength extracted
  let attributeChecks := validElements.map (classifyOne spec)
  let elementsWithAttribute :=
    attributeChecks.filter (fun it => it.hasAttribute && cfg.includeElementsWithAttribute)
  let elementsMissingAttribute := attributeChecks.filter (fun it => !it.hasAttribute)
  let withPair :=
    withBatchLoop (enrichWith page.url cfg.captureScreenshots attributeName)
      validElements.length elementsWithAttribute
  let missPair :=
    missBatchLoop (enrichMissing page.url cfg.captureScreenshots)
      validElements.length elementsMissingAttribute
  let hasAttributeElements := withPair.1
  let missingElements := missPair.1
  let finalProg : Prog :=
    ⟨validElements.length, validElements.length, missingElements.length⟩
  { allHandles := allHandles,
    extracted := extracted,
    validElements := validElements,
    attributeChecks := attributeChecks,
    elementsWithAttribute := elementsWithAttribute,
    elementsMissingAttribute := elementsMissingAttribute,
    hasAttributeElements := hasAttributeElements,
    missingElements := missingElements,
    trace := (⟨0, allHandles.length, 0⟩ : Prog) :: (extTrace ++ withPair.2 ++ missPair.2) ++ [finalProg],
    result := {
      attributeName := attributeName,
      totalElementsScanned := validElements.length,
      missingAttributeCount := missingElements.length,
      hasAttributeCount :=
        if cfg.includeElementsWithAttribute then some hasAttributeElements.length else none,
      elementsMissingAttribute := missingElements,
      elementsWithAttribute :=
        if cfg.includeElementsWithAttribute then some hasAttributeElements else none,
      timestamp := page.timestamp,
      pageUrl := page.url } }

/-- The hard failure raised on a failure-threshold breach (audit.ts line
609); it carries the computed missing percentage and the configured
threshold, which is what the thrown message interpolates. -/
structure ThresholdFailure where
  missingPercentage : ℚ
  threshold : ℚ
deriving DecidableEq

/-- Transcription of the percentage computation (audit.ts lines
586-589): coverage is 100 when no element was scanned, otherwise
`(total - missing) / total * 100`; the missing percentage is its
complement. -/
def missingPercentageQ (total missing : Nat) : ℚ :=
  let coveragePercentage : ℚ :=
    if total > 0 then (((total : ℚ) - (missing : ℚ)) / (total : ℚ)) * 100 else 100
  100 - coveragePercentage

/-- Observable outcome of one audit call: the progress-callback trace,
whether the warning branch fired, and either the returned result or the
threshold failure. -/
structure AuditOutcome where
  trace : List Prog
  warned : Bool
  result : Except ThresholdFailure AuditResult

/-- The full audit call (audit.ts lines 142-644): the pipeline followed
by the threshold evaluation (lines 584-611).  The warning branch is the
non-fatal signal (console narration is external); a failure-threshold
breach throws instead of returning the result. -/
def runAudit (cfg : AuditConfig) (page : PageModel) : AuditOutcome :=
  let p := auditPipeline cfg page
  match cfg.thresholds with
  | none => ⟨p.trace, false, Except.ok p.result⟩
  | some th =>
    let missingPercentage :=
      missingPercentageQ p.validElements.length p.missingElements.length
    let warned :=
      match th.warningThreshold with
      | some w => decide (missingPercentage > w)
      | none => false
    match th.failureThreshold with
    | some ft =>
      if missingPercentage > ft then
        ⟨p.trace, warned, Except.error ⟨missingPercentage, ft⟩⟩
      else ⟨p.trace, warned, Except.ok p.result⟩
    | none => ⟨p.trace, warned, Except.ok p.result⟩

/-- Claim-side synthesized selector, following the specification's
wording: "#id" when an id exists, otherwise "tag.class1.class2..." over
all space-separated class tokens when a non-empty class list exists,
otherwise the bare tag name. -/
def claimSelector (tag idv : String) (className : Option String) : String :=
  if idv ≠ "" then "#" ++ idv
  else
    let toks :=
      match className with
      | some cn => (splitOnChar ' ' cn).filter (fun c => c != "")
      | none => []
    match toks with
    | [] => tag
    | _ :: _ => tag ++ "." ++ joinDots toks

/-- First available value of a list of optional sources. -/
def firstSome {α : Type} : List (Option α) → Option α
  | [] => none
  | o :: rest =>
    match o with
    | some a => some a
    | none => firstSome rest

/-- Claim-side priority list for the suggested value: element id,
aria-label, parent's aria-label, name attribute, visible text content
under 50 characters, placeholder, first non-framework class token; the
fallback applies when every source is unavailable. -/
def prioritySource (el : Elem) : Option String :=
  firstSome [
    (if el.id ≠ "" then some el.id else none),
    jsStr (el.getAttr "aria-label"),
    (match el.parentAria with
     | some pal => jsStr pal
     | none => none),
    (if el.nameProp ≠ "" then some el.nameProp else none),
    (if (getVisibleText el.cloneText).length > 0 ∧ (getVisibleText el.cloneText).length < 50
     then some (getVisibleText el.cloneText) else none),
    (if el.placeholderProp ≠ "" then some el.placeholderProp else none),
    (match el.className with
     | some cn =>
       if cn ≠ "" then ((splitOnChar ' ' cn).filter classTokenKeep).head? else none
     | none => none) ]

/-- Claim-side kebab-case as the specification words it: hyphens are
inserted before internal capitals only, and every non-alphanumeric
character (including underscores and punctuation) is turned into a
hyphen before the runs are collapsed and the edges trimmed. -/
def claimCapsHyphen : List Char → List Char
  | [] => []
  | c :: rest =>
    c :: rest.foldr (fun d acc => if d.isUpper then '-' :: d :: acc else d :: acc) []

/-- Claim-side kebab-case conversion (see `claimCapsHyphen`). -/
def claimKebabCase (s : String) : String :=
  ⟨(kebabStep5 (kebabStep4 ((claimCapsHyphen s.data).map
      (fun c => if c.isAlpha || c.isDigit then c else '-')))).map Char.toLower⟩

/-- Whitespace-to-hyphen character map used to restate the kebab
pipeline. -/
def toH (c : Char) : Char :=
  if c.isWhitespace then '-' else c

/-- Character-level delete-or-map used by the deleting reformulation of
the kebab pipeline: whitespace becomes a hyphen, letters, digits and
hyphens survive, everything else is deleted. -/
def wsDel (c : Char) : Option Char :=
  if c.isWhitespace then some '-'
  else if c.isAlpha || c.isDigit || c == '-' then some c
  else none

/-- Deleting reformulation of the source's kebab-case conversion: after
the capital-hyphen insertion, non-alphanumeric characters other than
whitespace and hyphens are deleted and each whitespace character becomes
a hyphen, before the hyphen runs are collapsed, the edges trimmed and
the result lower-cased. -/
def specKebabDeleting (s : String) : String :=
  ⟨(kebabStep5 (kebabStep4 ((kebabStep1 s.data).filterMap wsDel))).map Char.toLower⟩

/-- Candidate whose bounding-box retrieval fails. -/
def setBoxFail (it : ClassifiedItem) : ClassifiedItem :=
  { it with item := { it.item with cand := { it.item.cand with boxOutcome := none } } }

/-- Candidate whose suggested-value evaluation throws. -/
def setSuggestFail (it : ClassifiedItem) : ClassifiedItem :=
  { it with item := { it.item with cand := { it.item.cand with suggestThrows := true } } }

/-- Candidate whose xpath generation fails. -/
def setXPathFail (it : ClassifiedItem) : ClassifiedItem :=
  { it with item := { it.item with cand := { it.item.cand with xpathOutcome := none } } }

/-- Candidate whose screenshot capture fails. -/
def setShotFail (it : ClassifiedItem) : ClassifiedItem :=
  { it with item := { it.item with cand := { it.item.cand with screenshotOutcome := none } } }

/-- A plain element with the given id and text, no attributes, no
classes, and no failing driver operations; used for concrete runs. -/
def elemPlain (idv text : String) : Elem :=
  { tagName := "BUTTON", textContent := text, id := idv, className := none,
    matchesSelf := fun _ => some false, matchesAncestors := [],
    getAttr := fun _ => none, attributeNames := [], nameProp := "",
    placeholderProp := "", parentAria := none, cloneText := text,
    randSuffix := "q1w2e3" }

/-- A candidate over the given element with every driver operation
succeeding (bounding box and screenshot simply unavailable). -/
def okCand (e : Elem) : Candidate :=
  { elem := e, extractThrows := false, classifyThrows := false, boxOutcome := none,
    suggestThrows := false, xpathOutcome := none, screenshotOutcome := none,
    attrValueThrows := false }

/-- Baseline configuration: no explicit attribute name (so the default
data- pattern applies), no exclusions, no thresholds, no extras. -/
def cfgBase : AuditConfig :=
  { playwrightConfigAttr := none, optionsAttributeName := none, excludeSelectors := [],
    minTextLength := 0, thresholds := none, captureScreenshots := false,
    includeElementsWithAttribute := false }

/-- Baseline configuration with a minimum text length of 1. -/
def cfgMinLen : AuditConfig :=
  { cfgBase with minTextLength := 1 }

/-- Two-selector page (one candidate each) with a parameterized
query-completion order. -/
def pageTwoSel (ord : List Nat) : PageModel :=
  { url := "u", timestamp := "t",
    selectorQueries :=
      [("button", some [okCand (elemPlain "a" "hello")]),
       ("a", some [okCand (elemPlain "b" "world")])],
    queryOrder := ord, extractionOrder := [] }

/-- One-selector page with ten candidates, the last five having empty
text; queries and extractions complete in issue order. -/
def pageTen : PageModel :=
  { url := "u", timestamp := "t",
    selectorQueries :=
      [("button", some (List.replicate 5 (okCand (elemPlain "" "hello")) ++
                        List.replicate 5 (okCand (elemPlain "" ""))))],
    queryOrder := [0], extractionOrder := List.range 10 }

/-- One-selector page with a single candidate and thresholds in play. -/
def pageOne : PageModel :=
  { url := "u", timestamp := "t",
    selectorQueries := [("button", some [okCand (elemPlain "a" "hello")])],
    queryOrder := [0], extractionOrder := [0] }

/-- Configuration with warning and failure thresholds of 50 percent. -/
def cfgThresholds : AuditConfig :=
  { cfgBase with thresholds := some { warningThreshold := some 50, failureThreshold := some 50 } }

/-- The has-attribute batch loop produces exactly the order-preserving
`filterMap` of its enrichment function, whatever the batch boundaries:
batching bounds concurrency but never reorders. -/
theorem withBatchGo_fst (f : ClassifiedItem → Option HasAttributeElement)
    (wl vl : Nat) :
    ∀ (fuel : Nat) (l : List ClassifiedItem) (i : Nat), l.length ≤ fuel →
      (withBatchGo f wl vl fuel i l).1 = l.filterMap f := by
  intro fuel
  induction fuel with
  | zero =>
    intro l i h
    have hl : l = [] := List.length_eq_zero.mp (Nat.le_zero.mp h)
    subst hl
    rfl
  | succ n ih =>
    intro l i h
    cases l with
    | nil => rfl
    | cons a t =>
      have hlen : ((a :: t).drop 50).length ≤ n := by
        have := (a :: t).length_drop 50
        simp only [List.length_cons] at h this
        omega
      show ((a :: t).take 50).filterMap f ++
          (withBatchGo f wl vl n (i + 50) ((a :: t).drop 50)).1 = _
      rw [ih _ _ hlen,
        ← List.filterMap_append ((a :: t).take 50) ((a :: t).drop 50) f,
        List.take_append_drop]

/-- Same statement for the missing-partition batch loop. -/
theorem missBatchGo_fst (f : ClassifiedItem → Option MissingAttributeElement)
    (vl : Nat) :
    ∀ (fuel : Nat) (l : List ClassifiedItem) (acc : Nat), l.length ≤ fuel →
      (missBatchGo f vl fuel acc l).1 = l.filterMap f := by
  intro fuel
  induction fuel with
  | zero =>
    intro l acc h
    have hl : l = [] := List.length_eq_zero.mp (Nat.le_zero.mp h)
    subst hl
    rfl
  | succ n ih =>
    intro l acc h
    cases l with
    | nil => rfl
    | cons a t =>
      have hlen : ((a :: t).drop 50).length ≤ n := by
        have := (a :: t).length_drop 50
        simp only [List.length_cons] at h this
        omega
      show ((a :: t).take 50).filterMap f ++
          (missBatchGo f vl n (acc + (((a :: t).take 50).filterMap f).length)
            ((a :: t).drop 50)).1 = _
      rw [ih _ _ hlen,
        ← List.filterMap_append ((a :: t).take 50) ((a :: t).drop 50) f,
        List.take_append_drop]

/-- Batch-loop entry points compute the order-preserving `filterMap`. -/
theorem withBatchLoop_fst (f : ClassifiedItem → Option HasAttributeElement)
    (vl : Nat) (l : List ClassifiedItem) :
    (withBatchLoop f vl l).1 = l.filterMap f :=
  withBatchGo_fst f l.length vl l.length l 0 (Nat.le_refl _)

/-- Batch-loop entry points compute the order-preserving `filterMap`. -/
theorem missBatchLoop_fst (f : ClassifiedItem → Option MissingAttributeElement)
    (vl : Nat) (l : List ClassifiedItem) :
    (missBatchLoop f vl l).1 = l.filterMap f :=
  missBatchGo_fst f vl l.length l 0 (Nat.le_refl _)

/-- When every selector query completes in the order the selectors were
given, discovery yields the candidate list in configured selector order
with document order inside each group. -/
theorem discover_range (qs : List (String × Option (List Candidate))) :
    discover qs (List.range qs.length) = discoverSeq qs := by
  induction qs with
  | nil => rfl
  | cons q t ih =>
    show ((List.range (t.length + 1)).map _).flatten = _
    rw [List.range_succ_eq_map]
    show (_ :: ((List.range t.length).map Nat.succ).map _).flatten = _
    rw [List.map_map]
    have hmap :
        ((List.range t.length).map ((fun i =>
          match (q :: t).get? i with
          | some (sel, some els) =>
            els.map (fun e => ({ cand := e, origSelector := sel } : DiscItem))
          | _ => ([] : List DiscItem)) ∘ Nat.succ)) =
        ((List.range t.length).map (fun i =>
          match t.get? i with
          | some (sel, some els) =>
            els.map (fun e => ({ cand := e, origSelector := sel } : DiscItem))
          | _ => ([] : List DiscItem))) := by
      apply List.map_congr_left
      intro i _
      rfl
    show (_ :: (List.range t.length).map _).flatten = _
    rw [hmap]
    show _ ++ discover t (List.range t.length) = _
    rw [ih]
    show _ ++ discoverSeq t = discoverSeq (q :: t)
    cases q with
    | mk sel o =>
      cases o with
      | none => rfl
      | some els => rfl

/-- A boolean filter and its complement partition the list's length. -/
theorem filterPartitionLength {α : Type} (l : List α) (p : α → Bool) :
    (l.filter p).length + (l.filter (fun x => !p x)).length = l.length := by
  induction l with
  | nil => rfl
  | cons a t ih =>
    cases h : p a with
    | true => simp [List.filter_cons, h]; omega
    | false => simp [List.filter_cons, h]; omega

/-- The validity filter is the order-preserving filter of the non-null
extractions by the exclusion and minimum-text-length conditions. -/
theorem validFilter_eq (m : Nat) (l : List (Option ScanItem)) :
    validFilter m l = (l.filterMap id).filter (validKeep m) := by
  induction l with
  | nil => rfl
  | cons o t ih =>
    cases o with
    | none =>
      simpa [validFilter, List.filterMap_cons] using ih
    | some it =>
      have hL : validFilter m (some it :: t) =
          if validKeep m it then it :: validFilter m t else validFilter m t := by
        cases hk : validKeep m it <;> simp [validFilter, List.filterMap_cons, hk]
      have hR : ((some it :: t).filterMap id).filter (validKeep m) =
          if validKeep m it then it :: ((t.filterMap id).filter (validKeep m))
          else (t.filterMap id).filter (validKeep m) := by
        cases hk : validKeep m it <;> simp [List.filterMap_cons, List.filter_cons, hk]
      rw [hL, hR, ih]

/-- Projection: the discovered candidate list of a run. -/
theorem auditPipeline_allHandles (cfg : AuditConfig) (page : PageModel) :
    (auditPipeline cfg page).allHandles =
      discover page.selectorQueries page.queryOrder := rfl

/-- Projection: the valid elements of a run. -/
theorem auditPipeline_validElements (cfg : AuditConfig) (page : PageModel) :
    (auditPipeline cfg page).validElements =
      validFilter cfg.minTextLength
        ((auditPipeline cfg page).allHandles.map (extractOne cfg.excludeSelectors)) := rfl

/-- Projection: the classified elements of a run. -/
theorem auditPipeline_attributeChecks (cfg : AuditConfig) (page : PageModel) :
    (auditPipeline cfg page).attributeChecks =
      (auditPipeline cfg page).validElements.map
        (classifyOne (getAttributeName cfg.playwrightConfigAttr cfg.optionsAttributeName)) := rfl

/-- Projection: the has-attribute partition of a run. -/
theorem auditPipeline_elementsWith (cfg : AuditConfig) (page : PageModel) :
    (auditPipeline cfg page).elementsWithAttribute =
      (auditPipeline cfg page).attributeChecks.filter
        (fun it => it.hasAttribute && cfg.includeElementsWithAttribute) := rfl

/-- Projection: the missing partition of a run. -/
theorem auditPipeline_elementsMissing (cfg : AuditConfig) (page : PageModel) :
    (auditPipeline cfg page).elementsMissingAttribute =
      (auditPipeline cfg page).attributeChecks.filter (fun it => !it.hasAttribute) := rfl

/-- Projection: the enriched has-attribute elements of a run. -/
theorem auditPipeline_hasAttributeElements (cfg : AuditConfig) (page : PageModel) :
    (auditPipeline cfg page).hasAttributeElements =
      (withBatchLoop
        (enrichWith page.url cfg.captureScreenshots
          (displayAttributeName (getAttributeName cfg.playwrightConfigAttr cfg.optionsAttributeName)))
        (auditPipeline cfg page).validElements.length
        (auditPipeline cfg page).elementsWithAttribute).1 := rfl

/-- Projection: the enriched missing elements of a run. -/
theorem auditPipeline_missingElements (cfg : AuditConfig) (page : PageModel) :
    (auditPipeline cfg page).missingElements =
      (missBatchLoop (enrichMissing page.url cfg.captureScreenshots)
        (auditPipeline cfg page).validElements.length
        (auditPipeline cfg page).elementsMissingAttribute).1 := rfl

/-- The enriched has-attribute list is the order-preserving `filterMap`
of the partition. -/
theorem auditPipeline_hasAttributeElements_eq (cfg : AuditConfig) (page : PageModel) :
    (auditPipeline cfg page).hasAttributeElements =
      (auditPipeline cfg page).elementsWithAttribute.filterMap
        (enrichWith page.url cfg.captureScreenshots
          (displayAttributeName (getAttributeName cfg.playwrightConfigAttr cfg.optionsAttributeName))) := by
  rw [auditPipeline_hasAttributeElements, withBatchLoop_fst]

/-- The enriched missing list is the order-preserving `filterMap` of the
partition. -/
theorem auditPipeline_missingElements_eq (cfg : AuditConfig) (page : PageModel) :
    (auditPipeline cfg page).missingElements =
      (auditPipeline cfg page).elementsMissingAttribute.filterMap
        (enrichMissing page.url cfg.captureScreenshots) := by
  rw [auditPipeline_missingElements, missBatchLoop_fst]

/-- Enrichment of a missing element never drops it: every fallible inner
operation is individually caught in the source. -/
theorem enrichMissing_isSome (u : String) (cap : Bool) (it : ClassifiedItem) :
    (enrichMissing u cap it).isSome = true := rfl

/-- The enriched missing list has exactly one entry per element of the
missing partition. -/
theorem missingElements_length (cfg : AuditConfig) (page : PageModel) :
    (auditPipeline cfg page).missingElements.length =
      (auditPipeline cfg page).elementsMissingAttribute.length := by
  rw [auditPipeline_missingElements_eq]
  induction (auditPipeline cfg page).elementsMissingAttribute with
  | nil => rfl
  | cons a t ih => simp [List.filterMap_cons, enrichMissing, ih]

/-- Projection: reported total is the valid-element count. -/
theorem auditPipeline_result_total (cfg : AuditConfig) (page : PageModel) :
    (auditPipeline cfg page).result.totalElementsScanned =
      (auditPipeline cfg page).validElements.length := rfl

/-- Projection: reported missing count is the enriched missing length. -/
theorem auditPipeline_result_missingCount (cfg : AuditConfig) (page : PageModel) :
    (auditPipeline cfg page).result.missingAttributeCount =
      (auditPipeline cfg page).missingElements.length := rfl

/-- Projection: reported missing array is the enriched missing list. -/
theorem auditPipeline_result_elementsMissing (cfg : AuditConfig) (page : PageModel) :
    (auditPipeline cfg page).result.elementsMissingAttribute =
      (auditPipeline cfg page).missingElements := rfl

/-- Projection: reported attribute name is the display name of the
resolved spec. -/
theorem auditPipeline_result_attributeName (cfg : AuditConfig) (page : PageModel) :
    (auditPipeline cfg page).result.attributeName =
      displayAttributeName
        (getAttributeName cfg.playwrightConfigAttr cfg.optionsAttributeName) := rfl

/-- Projection: reported has-attribute count is tracked only when
inclusion was requested. -/
theorem auditPipeline_result_hasCount (cfg : AuditConfig) (page : PageModel) :
    (auditPipeline cfg page).result.hasAttributeCount =
      (if cfg.includeElementsWithAttribute
       then some (auditPipeline cfg page).hasAttributeElements.length else none) := rfl

/-- The threshold stage never alters the progress trace. -/
theorem runAudit_trace (cfg : AuditConfig) (page : PageModel) :
    (runAudit cfg page).trace = (auditPipeline cfg page).trace := by
  cases hth : cfg.thresholds with
  | none => simp [runAudit, hth]
  | some th =>
    cases hft : th.failureThreshold with
    | none => simp [runAudit, hth, hft]
    | some ft =>
      by_cases h : missingPercentageQ (auditPipeline cfg page).validElements.length
          (auditPipeline cfg page).missingElements.length > ft
      · simp [runAudit, hth, hft, h]
      · simp [runAudit, hth, hft, h]

/-- C3: for every audit invocation, the reported missing count equals
the length of the reported missing array, the reported total equals the
number of valid elements, every valid element is classified into exactly
one of the has-attribute / missing partitions, and the missing count
plus the tracked has-attribute count never exceeds the total. -/
theorem C3_result_invariants (cfg : AuditConfig) (page : PageModel) :
    (auditPipeline cfg page).result.missingAttributeCount =
      (auditPipeline cfg page).result.elementsMissingAttribute.length
    ∧ (auditPipeline cfg page).result.totalElementsScanned =
      (auditPipeline cfg page).validElements.length
    ∧ ((auditPipeline cfg page).attributeChecks.filter (fun it => it.hasAttribute)).length
        + ((auditPipeline cfg page).attributeChecks.filter (fun it => !it.hasAttribute)).length
        = (auditPipeline cfg page).validElements.length
    ∧ (auditPipeline cfg page).result.missingAttributeCount
        + (auditPipeline cfg page).result.hasAttributeCount.getD 0
        ≤ (auditPipeline cfg page).result.totalElementsScanned := by
  refine ⟨rfl, rfl, ?_, ?_⟩
  · have h := filterPartitionLength (auditPipeline cfg page).attributeChecks
      (fun it => it.hasAttribute)
    rw [auditPipeline_attributeChecks, List.length_map] at h
    simpa using h
  · have hpart := filterPartitionLength (auditPipeline cfg page).attributeChecks
      (fun it => it.hasAttribute)
    have hlen : (auditPipeline cfg page).attributeChecks.length =
        (auditPipeline cfg page).validElements.length := by
      rw [auditPipeline_attributeChecks, List.length_map]
    have hmiss : (auditPipeline cfg page).result.missingAttributeCount =
        ((auditPipeline cfg page).attributeChecks.filter (fun it => !it.hasAttribute)).length := by
      rw [auditPipeline_result_missingCount, missingElements_length,
        auditPipeline_elementsMissing]
    rw [hmiss, auditPipeline_result_total, auditPipeline_result_hasCount]
    by_cases hinc : cfg.includeElementsWithAttribute = true
    · have hwith : (auditPipeline cfg page).hasAttributeElements.length ≤
          ((auditPipeline cfg page).attributeChecks.filter (fun it => it.hasAttribute)).length := by
        rw [auditPipeline_hasAttributeElements_eq, auditPipeline_elementsWith]
        have h1 := List.length_filterMap_le
          (enrichWith page.url cfg.captureScreenshots
            (displayAttributeName
              (getAttributeName cfg.playwrightConfigAttr cfg.optionsAttributeName)))
          ((auditPipeline cfg page).attributeChecks.filter
            (fun it => it.hasAttribute && cfg.includeElementsWithAttribute))
        have h2 : ((auditPipeline cfg page).attributeChecks.filter
            (fun it => it.hasAttribute && cfg.includeElementsWithAttribute)).length =
            ((auditPipeline cfg page).attributeChecks.filter
              (fun it => it.hasAttribute)).length := by
          simp only [hinc, Bool.and_true]
        omega
      simp only [hinc, if_true, Option.getD_some]
      omega
    · simp only [Bool.not_eq_true] at hinc
      simp only [hinc, Bool.false_eq_true, if_false, Option.getD_none, Nat.add_zero]
      have := List.length_filter_le (fun it => !it.hasAttribute)
        (auditPipeline cfg page).attributeChecks
      omega

/-- C2: with thresholds configured, the missing percentage follows the
specified formula with zero total treated as zero percent missing, the
warning fires exactly on strict exceedance of the warning threshold, and
the audit raises a hard failure carrying the percentage and the
configured threshold exactly when the failure threshold is strictly
exceeded, in which case no result is returned. -/
theorem C2_thresholds (cfg : AuditConfig) (page : PageModel) (th : Thresholds)
    (h : cfg.thresholds = some th) :
    (let total := (auditPipeline cfg page).validElements.length
     let missing := (auditPipeline cfg page).missingElements.length
     let mp := missingPercentageQ total missing
     (total = 0 → mp = 0)
     ∧ (total ≠ 0 → mp = 100 - 100 * (((total : ℚ) - (missing : ℚ)) / (total : ℚ)))
     ∧ ((runAudit cfg page).warned = true ↔
         ∃ w, th.warningThreshold = some w ∧ mp > w)
     ∧ ((∃ f, (runAudit cfg page).result = Except.error f) ↔
         ∃ ft, th.failureThreshold = some ft ∧ mp > ft)
     ∧ (∀ ft, th.failureThreshold = some ft → mp > ft →
         (runAudit cfg page).result = Except.error ⟨mp, ft⟩)) := by
  refine ⟨?_, ?_, ?_, ?_, ?_⟩
  · intro h0
    simp [missingPercentageQ, h0]
  · intro h0
    have hpos : 0 < (auditPipeline cfg page).validElements.length := Nat.pos_of_ne_zero h0
    simp only [missingPercentageQ, if_pos hpos]
    ring
  · simp only [runAudit, h]
    cases hw : th.warningThreshold with
    | none =>
      cases hft : th.failureThreshold with
      | none => simp
      | some ft =>
        by_cases hgt : missingPercentageQ (auditPipeline cfg page).validElements.length
            (auditPipeline cfg page).missingElements.length > ft
        · simp [hgt]
        · simp [hgt]
    | some w =>
      cases hft : th.failureThreshold with
      | none => simp [decide_eq_true_iff]
      | some ft =>
        by_cases hgt : missingPercentageQ (auditPipeline cfg page).validElements.length
            (auditPipeline cfg page).missingElements.length > ft
        · simp [hgt, decide_eq_true_iff]
        · simp [hgt, decide_eq_true_iff]
  · simp only [runAudit, h]
    cases hft : th.failureThreshold with
    | none => simp
    | some ft =>
      by_cases hgt : missingPercentageQ (auditPipeline cfg page).validElements.length
          (auditPipeline cfg page).missingElements.length > ft
      · simp [hgt]
      · simp [hgt]
  · intro ft hft hgt
    simp only [runAudit, h, hft]
    simp [hgt]

/-- C2 witness: threshold configuration exercised at a concrete run with
one missing element out of one (100 percent missing, above the 50
percent thresholds). -/
theorem C2_thresholds_witness :
    cfgThresholds.thresholds =
      some { warningThreshold := some 50, failureThreshold := some 50 }
    ∧ (let total := (auditPipeline cfgThresholds pageOne).validElements.length
       let missing := (auditPipeline cfgThresholds pageOne).missingElements.length
       let mp := missingPercentageQ total missing
       (total = 0 → mp = 0)
       ∧ (total ≠ 0 → mp = 100 - 100 * (((total : ℚ) - (missing : ℚ)) / (total : ℚ)))
       ∧ ((runAudit cfgThresholds pageOne).warned = true ↔
           ∃ w, ({ warningThreshold := some 50, failureThreshold := some 50 } : Thresholds).warningThreshold = some w ∧ mp > w)
       ∧ ((∃ f, (runAudit cfgThresholds pageOne).result = Except.error f) ↔
           ∃ ft, ({ warningThreshold := some 50, failureThreshold := some 50 } : Thresholds).failureThreshold = some ft ∧ mp > ft)
       ∧ (∀ ft, ({ warningThreshold := some 50, failureThreshold := some 50 } : Thresholds).failureThreshold = some ft → mp > ft →
           (runAudit cfgThresholds pageOne).result = Except.error ⟨mp, ft⟩)) :=
  ⟨rfl, C2_thresholds cfgThresholds pageOne
    { warningThreshold := some 50, failureThreshold := some 50 } rfl⟩

/-- A successful property extraction only ever wraps a candidate whose
evaluation did not throw. -/
theorem extractOne_some_not_throws (ex : List String) (d : DiscItem) (it : ScanItem)
    (h : extractOne ex d = some it) : it.cand.extractThrows = false := by
  cases ht : d.cand.extractThrows with
  | true => simp [extractOne, ht] at h
  | false =>
    simp only [extractOne, ht, Bool.false_eq_true, if_false, Option.some.injEq] at h
    rw [← h]
    exact ht

/-- Classification never changes the underlying element. -/
theorem classifyOne_item (sp : AttrSpec) (y : ScanItem) :
    (classifyOne sp y).item = y := by
  cases sp <;> by_cases h : y.cand.classifyThrows = true <;> simp [classifyOne, h]

/-- A throwing classification is resolved as has-attribute. -/
theorem classifyOne_throws_hasAttr (sp : AttrSpec) (y : ScanItem)
    (h : y.cand.classifyThrows = true) :
    (classifyOne sp y).hasAttribute = true := by
  simp [classifyOne, h]

/-- Joining a class token list whose head is non-empty never yields the
empty string. -/
theorem joinDots_ne_empty (c : String) (rest : List String) (hc : c ≠ "") :
    joinDots (c :: rest) ≠ "" := by
  cases rest with
  | nil => simpa [joinDots] using hc
  | cons r rs =>
    intro h
    have hd := congrArg String.data h
    rw [show joinDots (c :: r :: rs) = c ++ "." ++ joinDots (r :: rs) from rfl] at hd
    simp only [String.data_append] at hd
    have hcd : c.data = [] := by
      cases hcda : c.data with
      | nil => rfl
      | cons x xs => rw [hcda] at hd; simp at hd
    exact hc (by cases c with | mk d => cases hcd; rfl)

/-- C5: classification failures are fail-open (the element lands in the
has-attribute side, never the missing side) while extraction failures
are fail-closed (the candidate is dropped before validity); the two
error paths are never interchanged. -/
theorem C5_error_asymmetry (cfg : AuditConfig) (page : PageModel) :
    ((auditPipeline cfg page).attributeChecks.all
        (fun it => !it.item.cand.classifyThrows || it.hasAttribute)) = true
    ∧ ((auditPipeline cfg page).validElements.all
        (fun it => !it.cand.extractThrows)) = true
    ∧ ((auditPipeline cfg page).elementsMissingAttribute.all
        (fun it => !it.item.cand.classifyThrows)) = true := by
  refine ⟨?_, ?_, ?_⟩
  · rw [List.all_eq_true]
    intro x hx
    rw [auditPipeline_attributeChecks] at hx
    obtain ⟨y, _, rfl⟩ := List.mem_map.mp hx
    cases hc : y.cand.classifyThrows with
    | true =>
      rw [classifyOne_throws_hasAttr _ _ hc]
      simp
    | false =>
      rw [classifyOne_item]
      simp [hc]
  · rw [List.all_eq_true]
    intro x hx
    rw [auditPipeline_validElements, validFilter_eq] at hx
    have hx2 := (List.mem_filter.mp hx).1
    obtain ⟨o, ho, hoid⟩ := List.mem_filterMap.mp hx2
    obtain ⟨d, _, rfl⟩ := List.mem_map.mp ho
    simp [extractOne_some_not_throws cfg.excludeSelectors d x hoid]
  · rw [List.all_eq_true]
    intro x hx
    rw [auditPipeline_elementsMissing] at hx
    have hmem := (List.mem_filter.mp hx).1
    have hmiss := (List.mem_filter.mp hx).2
    rw [auditPipeline_attributeChecks] at hmem
    obtain ⟨y, _, rfl⟩ := List.mem_map.mp hmem
    cases hc : y.cand.classifyThrows with
    | true =>
      rw [classifyOne_throws_hasAttr _ _ hc] at hmiss
      simp at hmiss
    | false =>
      rw [classifyOne_item]
      simp [hc]

/-- C6: the validity filter keeps exactly the non-null extractions that
are not excluded and meet the minimum text length, in order; every valid
element of a run satisfies the condition, and only valid elements count
toward the reported total. -/
theorem C6_validity_filter (cfg : AuditConfig) (page : PageModel)
    (m : Nat) (l : List (Option ScanItem)) :
    validFilter m l = (l.filterMap id).filter (validKeep m)
    ∧ (∀ it : ScanItem, validKeep m it = true ↔
        (it.props.shouldExclude = false ∧ m ≤ it.props.textSnippet.length))
    ∧ ((auditPipeline cfg page).validElements.all (validKeep cfg.minTextLength)) = true
    ∧ (auditPipeline cfg page).result.totalElementsScanned =
        (auditPipeline cfg page).validElements.length := by
  refine ⟨validFilter_eq m l, ?_, ?_, rfl⟩
  · intro it
    exact decide_eq_true_iff
  · rw [List.all_eq_true]
    intro x hx
    rw [auditPipeline_validElements, validFilter_eq] at hx
    exact (List.mem_filter.mp hx).2

/-- C9: property extraction returns the lower-cased tag name, the
trimmed text content hard-truncated to 100 characters, and the
synthesized selector ("#id" over classes over bare tag). -/
theorem C9_extracted_properties (ex : List String) (el : Elem) :
    (computeProps ex el).tagName = strToLower el.tagName
    ∧ (computeProps ex el).textSnippet = strTake 100 (strTrim el.textContent)
    ∧ (computeProps ex el).selector =
        claimSelector (strToLower el.tagName) el.id el.className := by
  refine ⟨rfl, rfl, ?_⟩
  unfold computeProps claimSelector
  by_cases hid : el.id ≠ ""
  · simp [hid]
  · simp only [hid, if_false]
    cases hcn : el.className with
    | none => simp
    | some cn =>
      by_cases hcne : cn ≠ ""
      · cases htoks : (splitOnChar ' ' cn).filter (fun c => c != "") with
        | nil => simp [hcne, htoks, joinDots]
        | cons tkh tkt =>
          have hne : tkh ≠ "" := by
            have hmem : tkh ∈ (splitOnChar ' ' cn).filter (fun c => c != "") := by
              rw [htoks]
              exact List.mem_cons_self _ _
            simpa using (List.mem_filter.mp hmem).2
          have hj : joinDots (tkh :: tkt) ≠ "" := joinDots_ne_empty _ _ hne
          simp [hcne, htoks, hj]
      · have hcneq : cn = "" := by
          by_contra hcon
          exact hcne hcon
        subst hcneq
        simp [splitOnChar, splitOnCharAux, joinDots]

/-- C10: when the resolved attribute spec is the default pattern, the
reported attribute name is the literal default "data-testID", and the
has-attribute enrichment retrieves each element's value under that
default name rather than under whichever attribute matched the
pattern. -/
theorem C10_regex_fallback (cfg : AuditConfig) (page : PageModel)
    (h : getAttributeName cfg.playwrightConfigAttr cfg.optionsAttributeName =
      AttrSpec.defaultDataRegex) :
    (auditPipeline cfg page).result.attributeName = "data-testID"
    ∧ (auditPipeline cfg page).hasAttributeElements =
        (auditPipeline cfg page).elementsWithAttribute.filterMap
          (enrichWith page.url cfg.captureScreenshots "data-testID") := by
  constructor
  · rw [auditPipeline_result_attributeName, h]
    rfl
  · rw [auditPipeline_hasAttributeElements_eq, h]
    rfl

/-- C10 witness: with no configured or explicit attribute name the spec
resolves to the default pattern; the concrete run reports the default
name and enriches under it. -/
theorem C10_regex_fallback_witness :
    getAttributeName cfgBase.playwrightConfigAttr cfgBase.optionsAttributeName =
      AttrSpec.defaultDataRegex
    ∧ ((auditPipeline cfgBase pageOne).result.attributeName = "data-testID"
       ∧ (auditPipeline cfgBase pageOne).hasAttributeElements =
           (auditPipeline cfgBase pageOne).elementsWithAttribute.filterMap
             (enrichWith pageOne.url cfgBase.captureScreenshots "data-testID")) :=
  ⟨rfl, C10_regex_fallback cfgBase pageOne rfl⟩

/-- C8: a failure of a single enrichment operation (bounding box,
suggested value, path, screenshot) leaves only that field absent while
the element still appears (for a missing element unconditionally; for a
has-attribute element exactly as it would have with the operation
succeeding), and the only error that ever escapes the audit call is a
failure-threshold breach. -/
theorem C8_enrichment_isolation :
    (∀ (u : String) (cap : Bool) (it : ClassifiedItem),
      enrichMissing u cap (setBoxFail it) =
        (enrichMissing u cap it).map (fun e => { e with boundingBox := none }))
    ∧ (∀ (u : String) (cap : Bool) (it : ClassifiedItem),
      enrichMissing u cap (setSuggestFail it) =
        (enrichMissing u cap it).map (fun e => { e with suggestedValue := none }))
    ∧ (∀ (u : String) (cap : Bool) (it : ClassifiedItem),
      enrichMissing u cap (setXPathFail it) =
        (enrichMissing u cap it).map (fun e => { e with xpath := none }))
    ∧ (∀ (u : String) (cap : Bool) (it : ClassifiedItem),
      enrichMissing u cap (setShotFail it) =
        (enrichMissing u cap it).map (fun e => { e with screenshot := none }))
    ∧ (∀ (u : String) (cap : Bool) (nm : String) (it : ClassifiedItem),
      enrichWith u cap nm (setBoxFail it) =
        (enrichWith u cap nm it).map (fun e => { e with boundingBox := none }))
    ∧ (∀ (u : String) (cap : Bool) (nm : String) (it : ClassifiedItem),
      enrichWith u cap nm (setShotFail it) =
        (enrichWith u cap nm it).map (fun e => { e with screenshot := none }))
    ∧ (∀ (u : String) (cap : Bool) (it : ClassifiedItem),
      (enrichMissing u cap it).isSome = true)
    ∧ (∀ (cfg : AuditConfig) (page : PageModel),
      (auditPipeline cfg page).missingElements.length =
        (auditPipeline cfg page).elementsMissingAttribute.length)
    ∧ (∀ (cfg : AuditConfig) (page : PageModel),
      (∃ r, (runAudit cfg page).result = Except.ok r) ∨
      (∃ th ft, cfg.thresholds = some th ∧ th.failureThreshold = some ft ∧
        missingPercentageQ (auditPipeline cfg page).validElements.length
          (auditPipeline cfg page).missingElements.length > ft)) := by
  refine ⟨?_, ?_, ?_, ?_, ?_, ?_, ?_, ?_, ?_⟩
  · intro u cap it
    simp [enrichMissing, setBoxFail]
  · intro u cap it
    simp [enrichMissing, setSuggestFail]
  · intro u cap it
    simp [enrichMissing, setXPathFail]
  · intro u cap it
    simp [enrichMissing, setShotFail, enrichScreenshot]
  · intro u cap nm it
    cases hv : jsStr (if it.item.cand.attrValueThrows then none
        else it.item.cand.elem.getAttr nm) with
    | none => simp [enrichWith, setBoxFail, hv]
    | some v => simp [enrichWith, setBoxFail, hv]
  · intro u cap nm it
    cases hv : jsStr (if it.item.cand.attrValueThrows then none
        else it.item.cand.elem.getAttr nm) with
    | none => simp [enrichWith, setShotFail, hv]
    | some v =>
      simp [enrichWith, setShotFail, hv, enrichScreenshot]
  · intro u cap it
    rfl
  · intro cfg page
    exact missingElements_length cfg page
  · intro cfg page
    cases hth : cfg.thresholds with
    | none =>
      left
      refine ⟨(auditPipeline cfg page).result, ?_⟩
      simp [runAudit, hth]
    | some th =>
      cases hft : th.failureThreshold with
      | none =>
        left
        refine ⟨(auditPipeline cfg page).result, ?_⟩
        simp [runAudit, hth, hft]
      | some ft =>
        by_cases hgt : missingPercentageQ (auditPipeline cfg page).validElements.length
            (auditPipeline cfg page).missingElements.length > ft
        · right
          exact ⟨th, ft, rfl, hft, hgt⟩
        · left
          refine ⟨(auditPipeline cfg page).result, ?_⟩
          simp [runAudit, hth, hft, hgt]

/-- C1 counterexample: with two selector queries, the selector groups
land in query-completion order, so the same page and configuration with
the second query completing first yields the reversed missing array,
refuting order preservation under concurrency. -/
theorem C1_counterexample :
    ((auditPipeline cfgBase (pageTwoSel [1, 0])).result.elementsMissingAttribute.map
        (fun e => e.selector)) = ["#b", "#a"]
    ∧ ((auditPipeline cfgBase (pageTwoSel [0, 1])).result.elementsMissingAttribute.map
        (fun e => e.selector)) = ["#a", "#b"]
    ∧ List.Perm [1, 0] (List.range 2)
    ∧ (["#b", "#a"] : List String) ≠ ["#a", "#b"] := by
  refine ⟨?_, ?_, ?_, ?_⟩
  · rfl
  · rfl
  · decide
  · decide

/-- C1 amended: when the concurrent selector queries complete in the
order the selectors were given, the flattened candidate list is in
selector order with document order inside each group; and independently
of completion order, the partition and the batched enrichment preserve
the validated order (the final arrays are order-preserving filterMaps,
never re-sorted by enrichment concurrency). -/
theorem C1_order_determinism (cfg : AuditConfig) (page : PageModel)
    (h : page.queryOrder = List.range page.selectorQueries.length) :
    (auditPipeline cfg page).allHandles = discoverSeq page.selectorQueries
    ∧ (auditPipeline cfg page).elementsMissingAttribute =
        (auditPipeline cfg page).attributeChecks.filter (fun it => !it.hasAttribute)
    ∧ (auditPipeline cfg page).missingElements =
        (auditPipeline cfg page).elementsMissingAttribute.filterMap
          (enrichMissing page.url cfg.captureScreenshots)
    ∧ (auditPipeline cfg page).hasAttributeElements =
        (auditPipeline cfg page).elementsWithAttribute.filterMap
          (enrichWith page.url cfg.captureScreenshots
            (displayAttributeName
              (getAttributeName cfg.playwrightConfigAttr cfg.optionsAttributeName))) := by
  refine ⟨?_, auditPipeline_elementsMissing cfg page,
    auditPipeline_missingElements_eq cfg page,
    auditPipeline_hasAttributeElements_eq cfg page⟩
  rw [auditPipeline_allHandles, h, discover_range]

/-- C1 amended witness: the two-selector page with queries completing in
issue order. -/
theorem C1_order_determinism_witness :
    (pageTwoSel [0, 1]).queryOrder = List.range (pageTwoSel [0, 1]).selectorQueries.length
    ∧ ((auditPipeline cfgBase (pageTwoSel [0, 1])).allHandles =
          discoverSeq (pageTwoSel [0, 1]).selectorQueries
       ∧ (auditPipeline cfgBase (pageTwoSel [0, 1])).elementsMissingAttribute =
          (auditPipeline cfgBase (pageTwoSel [0, 1])).attributeChecks.filter
            (fun it => !it.hasAttribute)
       ∧ (auditPipeline cfgBase (pageTwoSel [0, 1])).missingElements =
          (auditPipeline cfgBase (pageTwoSel [0, 1])).elementsMissingAttribute.filterMap
            (enrichMissing (pageTwoSel [0, 1]).url cfgBase.captureScreenshots)
       ∧ (auditPipeline cfgBase (pageTwoSel [0, 1])).hasAttributeElements =
          (auditPipeline cfgBase (pageTwoSel [0, 1])).elementsWithAttribute.filterMap
            (enrichWith (pageTwoSel [0, 1]).url cfgBase.captureScreenshots
              (displayAttributeName
                (getAttributeName cfgBase.playwrightConfigAttr cfgBase.optionsAttributeName)))) :=
  ⟨rfl, C1_order_determinism cfgBase (pageTwoSel [0, 1]) rfl⟩

/-- C4 counterexample: a run with ten raw candidates of which five
survive the validity filter reports scanned values 0, 10, 5, 5 — the
extraction milestone reports against the raw candidate count and the
enrichment batches restart against the valid count, so the sequence
decreases. -/
theorem C4_counterexample :
    ((runAudit cfgMinLen pageTen).trace.map (fun pr => pr.scanned)) = [0, 10, 5, 5]
    ∧ ¬ List.Chain' (fun a b => a ≤ b)
        ((runAudit cfgMinLen pageTen).trace.map (fun pr => pr.scanned)) := by
  constructor
  · rfl
  · rw [show ((runAudit cfgMinLen pageTen).trace.map (fun pr => pr.scanned)) =
        [0, 10, 5, 5] from rfl]
    intro h
    have h3 : (10 : Nat) ≤ 5 := (h.tail).rel_head
    omega

/-- C4 amended: the scanned sequence is not monotone across phases, but
the threshold stage never alters the trace and the final callback of
every run reports scanned equal to total equal to the reported
totalElementsScanned (with the final missing count). -/
theorem C4_final_progress (cfg : AuditConfig) (page : PageModel) :
    (runAudit cfg page).trace = (auditPipeline cfg page).trace
    ∧ (auditPipeline cfg page).trace.getLast? = some
        { scanned := (auditPipeline cfg page).result.totalElementsScanned,
          total := (auditPipeline cfg page).result.totalElementsScanned,
          missing := (auditPipeline cfg page).result.missingAttributeCount } := by
  refine ⟨runAudit_trace cfg page, ?_⟩
  exact List.getLast?_concat _

/-- A non-hyphen head passes through the hyphen-collapsing step. -/
theorem step4_cons_ne (c : Char) (X : List Char) (h : ¬ c = '-') :
    kebabStep4 (c :: X) = c :: kebabStep4 X := by
  cases X with
  | nil => rfl
  | cons x xs =>
    have hb : (c == '-') = false := by simp [h]
    simp [kebabStep4, hb]

/-- Prepending a hyphen either merges into a leading hyphen of the
collapsed tail or stands alone. -/
theorem step4_cons_hyphen : ∀ (A : List Char),
    kebabStep4 ('-' :: A) =
      if (kebabStep4 A).head? = some '-' then kebabStep4 A else '-' :: kebabStep4 A
  | [] => rfl
  | a :: as => by
    by_cases ha : a = '-'
    · subst ha
      have ih := step4_cons_hyphen as
      have hL : kebabStep4 ('-' :: '-' :: as) = kebabStep4 ('-' :: as) := by
        simp [kebabStep4]
      have hhead : (kebabStep4 ('-' :: as)).head? = some '-' := by
        rw [ih]
        by_cases hc : (kebabStep4 as).head? = some '-'
        · rw [if_pos hc]
          exact hc
        · rw [if_neg hc]
          rfl
      rw [hL, if_pos hhead]
    · have hb : (a == '-') = false := by simp [ha]
      have hstep : kebabStep4 ('-' :: a :: as) = '-' :: kebabStep4 (a :: as) := by
        simp [kebabStep4, hb]
      have hne : kebabStep4 (a :: as) = a :: kebabStep4 as := step4_cons_ne a as ha
      have hhead : ¬ (kebabStep4 (a :: as)).head? = some '-' := by
        rw [hne]
        simp [ha]
      rw [hstep, if_neg hhead]

/-- Collapsing whitespace runs to single hyphens and then collapsing
hyphen runs is the same as sending every whitespace character to a
hyphen and collapsing hyphen runs. -/
theorem step34_eq : ∀ (y : List Char),
    kebabStep4 (kebabStep3 y) = kebabStep4 (y.map toH)
  | [] => rfl
  | [c] => by
    by_cases hw : c.isWhitespace = true
    · simp [kebabStep3, toH, hw]
    · simp [kebabStep3, toH, hw]
  | c₁ :: c₂ :: rest => by
    have ih := step34_eq (c₂ :: rest)
    by_cases hw1 : c₁.isWhitespace = true
    · have hmapc1 : toH c₁ = '-' := by simp [toH, hw1]
      by_cases hw2 : c₂.isWhitespace = true
      · have hmapc2 : toH c₂ = '-' := by simp [toH, hw2]
        have hL : kebabStep3 (c₁ :: c₂ :: rest) = kebabStep3 (c₂ :: rest) := by
          simp [kebabStep3, hw1, hw2]
        have hR : kebabStep4 ((c₁ :: c₂ :: rest).map toH) =
            kebabStep4 ((c₂ :: rest).map toH) := by
          show kebabStep4 (toH c₁ :: toH c₂ :: rest.map toH) =
            kebabStep4 (toH c₂ :: rest.map toH)
          rw [hmapc1, hmapc2]
          simp [kebabStep4]
        rw [hL, hR]
        exact ih
      · have hL : kebabStep3 (c₁ :: c₂ :: rest) = '-' :: kebabStep3 (c₂ :: rest) := by
          simp [kebabStep3, hw1, hw2]
        have hmap : (c₁ :: c₂ :: rest).map toH = '-' :: (c₂ :: rest).map toH := by
          simp [hmapc1]
        rw [hL, hmap, step4_cons_hyphen, step4_cons_hyphen, ih]
    · have hmapc1 : toH c₁ = c₁ := by simp [toH, hw1]
      have hL : kebabStep3 (c₁ :: c₂ :: rest) = c₁ :: kebabStep3 (c₂ :: rest) := by
        simp [kebabStep3, hw1]
      have hmap : (c₁ :: c₂ :: rest).map toH = c₁ :: (c₂ :: rest).map toH := by
        simp [hmapc1]
      rw [hL, hmap]
      by_cases hh : c₁ = '-'
      · subst hh
        rw [step4_cons_hyphen, step4_cons_hyphen, ih]
      · rw [step4_cons_ne _ _ hh, step4_cons_ne _ _ hh, ih]

/-- The whitespace-to-hyphen filterMap is the kept-character filter
followed by the whitespace-to-hyphen map. -/
theorem wsMap_filterMap (x : List Char) :
    x.filterMap wsDel = (kebabStep2 x).map toH := by
  induction x with
  | nil => rfl
  | cons c t ih =>
    by_cases hw : c.isWhitespace = true
    · have hf : wsDel c = some '-' := by
        simp only [wsDel]
        rw [if_pos hw]
      have hk : kebabKeep c = true := by simp [kebabKeep, hw]
      have ht : toH c = '-' := by
        simp only [toH]
        rw [if_pos hw]
      simpa [kebabStep2, List.filterMap_cons, List.filter_cons, hf, hk, ht] using ih
    · by_cases ha : (c.isAlpha || c.isDigit || c == '-') = true
      · have hf : wsDel c = some c := by
          simp only [wsDel]
          rw [if_neg hw, if_pos ha]
        have hk : kebabKeep c = true := by
          cases hA : c.isAlpha <;> cases hD : c.isDigit <;> cases hH : (c == '-') <;>
            simp_all [kebabKeep]
        have ht : toH c = c := by
          simp only [toH]
          rw [if_neg hw]
        simpa [kebabStep2, List.filterMap_cons, List.filter_cons, hf, hk, ht] using ih
      · have hf : wsDel c = none := by
          simp only [wsDel]
          rw [if_neg hw, if_neg ha]
        have hk : kebabKeep c = false := by
          cases hA : c.isAlpha <;> cases hD : c.isDigit <;> cases hW : c.isWhitespace <;>
            cases hH : (c == '-') <;> simp_all [kebabKeep]
        simpa [kebabStep2, List.filterMap_cons, List.filter_cons, hf, hk] using ih

/-- The source kebab-case pipeline equals its deleting reformulation. -/
theorem toKebab_eq_deleting (s : String) : toKebabCase s = specKebabDeleting s := by
  unfold toKebabCase specKebabDeleting
  rw [wsMap_filterMap (kebabStep1 s.data), ← step34_eq]

/-- C7 counterexample: the code deletes non-alphanumerics such as an
underscore instead of turning them into hyphens, so an element with id
"a_b" gets suggested value "ab" while the claim's kebab-case conversion
("non-alphanumerics stripped to hyphens") yields "a-b". -/
theorem C7_counterexample :
    suggestedValueCore (elemPlain "a_b" "x") = "ab"
    ∧ (elemPlain "a_b" "x").id = "a_b"
    ∧ claimKebabCase "a_b" = "a-b"
    ∧ ("ab" : String) ≠ "a-b" := by
  refine ⟨rfl, rfl, rfl, ?_⟩
  decide

/-- C7 amended: the suggested value follows the claimed priority order
(id, aria-label, parent aria-label, name, visible text under 50
characters, placeholder, first non-framework class token, random-suffix
fallback), every source value being converted by the source's
kebab-case: hyphens before capitals, non-alphanumerics other than
whitespace and hyphens deleted, whitespace runs turned into hyphens,
hyphen runs collapsed, edges trimmed and the result lower-cased; an
element with id "submit-btn" gets suggested value "submit-btn". -/
theorem C7_suggested_value (el : Elem) :
    suggestedValueCore el =
      (match prioritySource el with
       | some s => toKebabCase s
       | none => strToLower el.tagName ++ "-" ++ el.randSuffix)
    ∧ suggestedValueCore (elemPlain "submit-btn" "x") = "submit-btn"
    ∧ (∀ s : String, toKebabCase s = specKebabDeleting s) := by
  refine ⟨?_, rfl, fun s => toKebab_eq_deleting s⟩
  by_cases h1 : el.id ≠ ""
  · simp [suggestedValueCore, prioritySource, firstSome, h1]
  · cases h2 : jsStr (el.getAttr "aria-label") with
    | some al => simp [suggestedValueCore, prioritySource, firstSome, h1, h2]
    | none =>
      cases h3 : (match el.parentAria with
                  | some pal => jsStr pal
                  | none => none) with
      | some pal => simp [suggestedValueCore, prioritySource, firstSome, h1, h2, h3]
      | none =>
        by_cases h4 : el.nameProp ≠ ""
        · simp [suggestedValueCore, prioritySource, firstSome, h1, h2, h3, h4]
        · by_cases h5 : (getVisibleText el.cloneText).length > 0 ∧
              (getVisibleText el.cloneText).length < 50
          · simp [suggestedValueCore, prioritySource, firstSome, h1, h2, h3, h4, h5]
          · by_cases h6 : el.placeholderProp ≠ ""
            · simp [suggestedValueCore, prioritySource, firstSome, h1, h2, h3, h4, h5, h6]
            · cases h7 : el.className with
              | none =>
                simp [suggestedValueCore, prioritySource, firstSome, h1, h2, h3, h4, h5, h6, h7]
              | some cn =>
                by_cases h8 : cn ≠ ""
                · cases h9 : (splitOnChar ' ' cn).filter classTokenKeep with
                  | nil =>
                    simp [suggestedValueCore, prioritySource, firstSome,
                      h1, h2, h3, h4, h5, h6, h7, h8, h9]
                  | cons ch ct =>
                    simp [suggestedValueCore, prioritySource, firstSome,
                      h1, h2, h3, h4, h5, h6, h7, h8, h9]
                · simp [suggestedValueCore, prioritySource, firstSome,
                    h1, h2, h3, h4, h5, h6, h7, h8]

end AttrAudit
